import Mathlib

/-!
# Verification of the EasyDeL attention engine against its design spec

Shallow embedding of the attention-computation subsystem of EasyDeL:
the 8-bit quantization codec (`linear_8bit.py`), the key/value cache
append (`flax_modeling_utils.py`, `FlaxAttentionModule._concatenate_to_cache`),
the flash-attention dispatcher (`flash_attention_2.py`), the splash
block-size clamping (`splash.py`) and the dense-attention bias/softmax
path (`modelling_phi_flax.py`).

Tensors are modelled along the axis the claims quantify over: a row of a
tensor is a `List ℚ`, a cache's sequence axis is a `List α` whose entries
stand for the `[batch, heads, dim]` slice stored at one sequence position.
Machine floats are modelled by exact rationals; where a claim depends on a
specific float rounding effect this is stated at the definition involved.
-/

namespace EasyDeL

/-! ## Quantization codec (`easydel/layers/quantization/linear_8bit.py`)

`quantize_8bit` computes the per-row (last axis) absolute maximum,
clips it below by `1e-5`, divides by `127` to obtain the scale, and
rounds `x / scale` to the nearest integer (ties to even, as `jnp.round`)
clipped to `[-128, 127]`.  `dequantize_8bit` multiplies back.
-/

/-- `jnp.round`: round to the nearest integer, ties to even. -/
def rne (q : ℚ) : ℤ :=
  let f := ⌊q⌋
  let r := q - f
  if r < 1/2 then f
  else if 1/2 < r then f + 1
  else if Even f then f else f + 1

/-- `jnp.clip(v, min=-128, max=127)` on an integer value. -/
def clipInt8 (v : ℤ) : ℤ := max (-128) (min v 127)

/-- `jnp.amax(jnp.abs(x), axis=-1)` on one row. -/
def absMax (xs : List ℚ) : ℚ := (xs.map (fun x => |x|)).foldr max 0

/-- `quantize_8bit` on one row: returns the int8 payload and the scale. -/
def quantize_8bit (xs : List ℚ) : List ℤ × ℚ :=
  let max_val := max (absMax xs) (1/100000)
  let qscale := max_val / 127
  (xs.map (fun x => clipInt8 (rne (x * (1 / qscale)))), qscale)

/-- `dequantize_8bit` on one row: `quants * scales`. -/
def dequantize_8bit (quants : List ℤ) (scale : ℚ) : List ℚ :=
  quants.map (fun (q : ℤ) => (q : ℚ) * scale)

/-! Basic facts about `rne` and the scale. -/

theorem rne_sub_le (q : ℚ) : |(rne q : ℚ) - q| ≤ 1/2 := by
  unfold rne
  have hfl : (⌊q⌋ : ℚ) ≤ q := Int.floor_le q
  have hfu : q < (⌊q⌋ : ℚ) + 1 := Int.lt_floor_add_one q
  by_cases h1 : q - (⌊q⌋ : ℚ) < 1/2
  · simp only [h1, if_true]
    rw [abs_sub_comm, abs_of_nonneg (by linarith)]
    linarith
  · simp only [h1, if_false]
    by_cases h2 : (1:ℚ)/2 < q - (⌊q⌋ : ℚ)
    · simp only [h2, if_true]
      push_cast
      rw [abs_of_nonneg (by linarith)]
      linarith
    · have heq : q - (⌊q⌋ : ℚ) = 1/2 := le_antisymm (not_lt.mp h2) (not_lt.mp h1)
      simp only [h2, if_false]
      by_cases h3 : Even ⌊q⌋
      · simp only [h3, if_true]
        rw [abs_sub_comm, abs_of_nonneg (by linarith)]
        linarith
      · simp only [h3, if_false]
        push_cast
        rw [abs_of_nonneg (by linarith)]
        linarith

theorem rne_le_of_le {q : ℚ} {n : ℤ} (h : q ≤ n) : rne q ≤ n := by
  have h1 := rne_sub_le q
  rw [abs_le] at h1
  have : (rne q : ℚ) ≤ q + 1/2 := by linarith
  have h2 : (rne q : ℚ) ≤ (n : ℚ) + 1/2 := by linarith
  have h3 : (rne q : ℚ) < (n : ℚ) + 1 := by linarith
  exact_mod_cast Int.lt_add_one_iff.mp (by exact_mod_cast h3)

theorem le_rne_of_le {q : ℚ} {n : ℤ} (h : (n : ℚ) ≤ q) : n ≤ rne q := by
  have h1 := rne_sub_le q
  rw [abs_le] at h1
  have h3 : (n : ℚ) - 1 < (rne q : ℚ) := by linarith
  have : n - 1 < rne q := by exact_mod_cast h3
  omega

theorem absMax_nonneg (xs : List ℚ) : 0 ≤ absMax xs := by
  unfold absMax
  induction xs with
  | nil => simp
  | cons x t ih => simp only [List.map_cons, List.foldr_cons]; exact le_max_of_le_right ih

theorem abs_le_absMax {xs : List ℚ} {i : ℕ} (hi : i < xs.length) :
    |xs.get ⟨i, hi⟩| ≤ absMax xs := by
  unfold absMax
  induction xs generalizing i with
  | nil => simp at hi
  | cons x t ih =>
    cases i with
    | zero => simp only [List.get, List.map_cons, List.foldr_cons]; exact le_max_left _ _
    | succ j =>
      simp only [List.get, List.map_cons, List.foldr_cons]
      exact le_trans (ih (Nat.lt_of_succ_lt_succ hi)) (le_max_right _ _)

theorem quantize_scale_pos (xs : List ℚ) : 0 < (quantize_8bit xs).2 := by
  unfold quantize_8bit
  have : (0:ℚ) < max (absMax xs) (1/100000) :=
    lt_max_of_lt_right (by norm_num)
  positivity

theorem rne_zero : rne 0 = 0 := by
  unfold rne
  norm_num

/-- Elementwise round-trip error bound for one quantized element. -/
theorem clip_rne_mul_close (x s : ℚ) (hs : 0 < s) (hx : |x| ≤ 127 * s) :
    |(clipInt8 (rne (x * (1 / s))) : ℚ) * s - x| ≤ s / 2 := by
  have hxs : |x * (1 / s)| ≤ 127 := by
    rw [abs_mul, abs_of_nonneg (by positivity : (0:ℚ) ≤ 1 / s)]
    calc |x| * (1/s) ≤ (127 * s) * (1/s) :=
          mul_le_mul_of_nonneg_right hx (by positivity)
    _ = 127 := by field_simp
  rw [abs_le] at hxs
  have hub : rne (x * (1 / s)) ≤ 127 := rne_le_of_le (by exact_mod_cast hxs.2)
  have hlb : (-127 : ℤ) ≤ rne (x * (1 / s)) := le_rne_of_le (by push_cast; linarith [hxs.1])
  have hclip : clipInt8 (rne (x * (1 / s))) = rne (x * (1 / s)) := by
    unfold clipInt8
    omega
  rw [hclip]
  have hd := rne_sub_le (x * (1 / s))
  rw [abs_le] at hd
  have hxx : x * (1 / s) * s = x := by field_simp
  rw [abs_le]
  constructor
  · have := mul_le_mul_of_nonneg_right hd.1 (le_of_lt hs)
    calc -(s/2) = (-(1/2) : ℚ) * s := by ring
    _ ≤ ((rne (x * (1/s)) : ℚ) - x * (1/s)) * s := by
          apply mul_le_mul_of_nonneg_right _ (le_of_lt hs)
          linarith
    _ = (rne (x * (1/s)) : ℚ) * s - x := by rw [sub_mul, hxx]
  · calc (rne (x * (1/s)) : ℚ) * s - x = ((rne (x * (1/s)) : ℚ) - x * (1/s)) * s := by
          rw [sub_mul, hxx]
    _ ≤ (1/2 : ℚ) * s := by
          apply mul_le_mul_of_nonneg_right _ (le_of_lt hs)
          linarith
    _ = s / 2 := by ring

/-- C2: for every input row `x` and every index, `dequantize_8bit (quantize_8bit x)`
differs from `x` by at most `scale / 2` elementwise, where `scale` is the per-row
scale returned by `quantize_8bit`; and for an all-zero row the round-trip result
is exactly zero. -/
theorem quantize_dequantize_roundtrip (xs : List ℚ) (i : ℕ) (hi : i < xs.length) :
    |(dequantize_8bit (quantize_8bit xs).1 (quantize_8bit xs).2).getD i 0 - xs.getD i 0|
      ≤ (quantize_8bit xs).2 / 2
    ∧ ((∀ x ∈ xs, x = 0) →
        dequantize_8bit (quantize_8bit xs).1 (quantize_8bit xs).2
          = List.replicate xs.length 0) := by
  have hsq : (quantize_8bit xs).2 = max (absMax xs) (1/100000) / 127 := rfl
  have hq1 : (quantize_8bit xs).1
      = xs.map (fun x => clipInt8 (rne (x * (1 / (quantize_8bit xs).2)))) := rfl
  have hs : 0 < (quantize_8bit xs).2 := quantize_scale_pos xs
  have hdq : dequantize_8bit (quantize_8bit xs).1 (quantize_8bit xs).2
      = xs.map (fun x =>
          (clipInt8 (rne (x * (1 / (quantize_8bit xs).2))) : ℚ) * (quantize_8bit xs).2) := by
    rw [hq1]
    simp only [dequantize_8bit, List.map_map, Function.comp_def]
  constructor
  · have hlen : i < (dequantize_8bit (quantize_8bit xs).1 (quantize_8bit xs).2).length := by
      rw [hdq, List.length_map]; exact hi
    rw [List.getD_eq_getElem _ _ hlen, List.getD_eq_getElem _ _ hi]
    have hget : (dequantize_8bit (quantize_8bit xs).1 (quantize_8bit xs).2).get ⟨i, hlen⟩
        = (clipInt8 (rne (xs.get ⟨i, hi⟩ * (1 / (quantize_8bit xs).2))) : ℚ)
            * (quantize_8bit xs).2 := by
      simp only [List.get_eq_getElem, hdq, List.getElem_map]
    simp only [List.get_eq_getElem] at hget
    rw [hget]
    apply clip_rne_mul_close _ _ hs
    have h1 : |xs.get ⟨i, hi⟩| ≤ absMax xs := abs_le_absMax hi
    have h2 : absMax xs ≤ max (absMax xs) (1/100000) := le_max_left _ _
    have h3 : 127 * (quantize_8bit xs).2 = max (absMax xs) (1/100000) := by
      rw [hsq]; ring
    rw [h3]
    simp only [List.get_eq_getElem] at h1
    exact le_trans h1 h2
  · intro hz
    rw [hdq]
    have hzz : ∀ x ∈ xs,
        (clipInt8 (rne (x * (1 / (quantize_8bit xs).2))) : ℚ) * (quantize_8bit xs).2 = 0 := by
      intro x hx
      have hx0 : x = 0 := hz x hx
      have hc : clipInt8 0 = 0 := by unfold clipInt8; omega
      simp only [hx0, zero_mul, rne_zero, hc]
      push_cast
      ring
    rw [List.eq_replicate_iff]
    refine ⟨by simp, ?_⟩
    intro b hb
    rw [List.mem_map] at hb
    obtain ⟨a, ha, hab⟩ := hb
    rw [← hab]
    exact hzz a ha

/-- C2 witness: the round-trip bound evaluated at the concrete row `[3, -1/2]`,
index 0. -/
theorem quantize_dequantize_roundtrip_witness :
    0 < ([3, -1/2] : List ℚ).length ∧
    (|(dequantize_8bit (quantize_8bit [3, -1/2]).1 (quantize_8bit [3, -1/2]).2).getD 0 0
        - ([3, -1/2] : List ℚ).getD 0 0| ≤ (quantize_8bit [3, -1/2]).2 / 2
      ∧ ((∀ x ∈ ([3, -1/2] : List ℚ), x = 0) →
          dequantize_8bit (quantize_8bit [3, -1/2]).1 (quantize_8bit [3, -1/2]).2
            = List.replicate ([3, -1/2] : List ℚ).length 0)) :=
  ⟨by decide, quantize_dequantize_roundtrip [3, -1/2] 0 (by decide)⟩

/-- C5 counterexample: on the all-zero row `[0]` the returned scale is
`(1e-5)/127 = 1/12700000`, which is strictly below the claimed floor `1e-5`. -/
theorem quantize_scale_floor_counterexample :
    (quantize_8bit [0]).2 < 1/100000 := by
  norm_num [quantize_8bit, absMax]

/-- C5 (amended): the `1e-5` floor is applied to the per-row absolute maximum
before division by 127, so the scale returned by `quantize_8bit` is always at
least `1e-5 / 127 = 1/12700000` — strictly positive, hence no division by zero
on the quantize path — but not necessarily at least `1e-5`. -/
theorem quantize_scale_floor (xs : List ℚ) :
    1/12700000 ≤ (quantize_8bit xs).2 ∧ 0 < (quantize_8bit xs).2 := by
  refine ⟨?_, quantize_scale_pos xs⟩
  have hsq : (quantize_8bit xs).2 = max (absMax xs) (1/100000) / 127 := rfl
  rw [hsq]
  have h : (1/100000 : ℚ) ≤ max (absMax xs) (1/100000) := le_max_right _ _
  linarith

/-! ## Key/value cache append
(`src/easydel/modules/flax_modeling_utils.py`,
`FlaxAttentionModule._concatenate_to_cache`, initialized-cache path,
`do_quantize_kv_cache = False`)

The cache's sequence axis of fixed length `max_length` is a `List α`; an
entry of type `α` stands for the `[batch, heads, head_dim]` slice stored at
one sequence position.  The write cursor `cache_index` is a natural number
(the stored `int32` is always non-negative here).  The attention mask's
trailing `max_length` axis is a `List Bool`.
-/

/-- Per-layer cache state: `cached_key`, `cached_value` and `cache_index`. -/
structure CacheState (α : Type) where
  cached_key : List α
  cached_value : List α
  cache_index : ℕ
deriving DecidableEq

/-- `jax.lax.dynamic_update_slice` along the sequence axis: the start index is
clamped into `[0, operand.length - update.length]` (the lower clamp is implicit
in `ℕ`), then `update` overwrites `operand` starting there. -/
def dynamic_update_slice {α : Type} (operand update : List α) (start : ℕ) : List α :=
  let s := min start (operand.length - update.length)
  operand.take s ++ update ++ operand.drop (s + update.length)

/-- `jnp.arange(max_length) < cur_index + num_updated_cache_vectors`, the pad
mask broadcast along the sequence axis. -/
def pad_mask (max_length cur_index num_updated : ℕ) : List Bool :=
  (List.range max_length).map (fun j => decide (j < cur_index + num_updated))

/-- `flax.linen.combine_masks`: elementwise logical and of the masks. -/
def combine_masks (a b : List Bool) : List Bool := List.zipWith and a b

/-- The body `fn` of the sharded single-token append, for one shard: shift the
global cursor by `axis_index * sp_size`; if the shifted cursor falls inside
`[0, sp_size)` write the new token into the local slice at that offset,
otherwise return the local slices unchanged (`jax.lax.cond`). -/
def sharded_cache_update_shard {α : Type} (sp_size : ℕ)
    (chunk_key chunk_value : List α) (tok_key tok_value : α)
    (local_index : ℤ) : List α × List α :=
  if 0 ≤ local_index ∧ local_index < sp_size then
    (chunk_key.set local_index.toNat tok_key, chunk_value.set local_index.toNat tok_value)
  else
    (chunk_key, chunk_value)

/-- The sharded single-token append over the whole sequence axis: the cache is
split into `shards` contiguous chunks of `sp_size = max_length / shards`
positions; shard `p` (its `axis_index`) runs the per-shard body on its local
slice with local cursor `cur_index - p * sp_size`; results are joined back. -/
def sharded_cache_update {α : Type} (shards : ℕ)
    (cached_key cached_value : List α) (tok_key tok_value : α)
    (cur_index : ℕ) : List α × List α :=
  let sp_size := cached_key.length / shards
  let chunks := (List.range shards).map (fun p =>
    sharded_cache_update_shard sp_size
      ((cached_key.drop (p * sp_size)).take sp_size)
      ((cached_value.drop (p * sp_size)).take sp_size)
      tok_key tok_value ((cur_index : ℤ) - (p : ℤ) * (sp_size : ℤ)))
  ((chunks.map Prod.fst).flatten, (chunks.map Prod.snd).flatten)

/-- `_concatenate_to_cache` on an initialized, non-quantized cache.
`query_len` is `query_states.shape[1]`.  When `query_len == 1` and
`use_sharded_kv_caching` is set, the sharded path writes the single new token
(`_key[:, -1]`) through the per-shard conditional and returns the attention
mask untouched; otherwise `dynamic_update_slice` writes at the cursor and the
pad mask `arange(max_length) < cur_index + query_len` is combined into the
returned mask.  In both paths the cursor then advances by `query_len`;
no capacity check is performed anywhere. -/
def concatenate_to_cache {α : Type} [Inhabited α] (use_sharded_kv_caching : Bool)
    (shards : ℕ) (st : CacheState α) (key value : List α) (query_len : ℕ)
    (attention_mask : List Bool) :
    CacheState α × List α × List α × List Bool :=
  let max_length := st.cached_key.length
  if query_len = 1 ∧ use_sharded_kv_caching then
    let kv := sharded_cache_update shards st.cached_key st.cached_value
      (key.getLastD default) (value.getLastD default) st.cache_index
    (⟨kv.1, kv.2, st.cache_index + query_len⟩, kv.1, kv.2, attention_mask)
  else
    let key' := dynamic_update_slice st.cached_key key st.cache_index
    let value' := dynamic_update_slice st.cached_value value st.cache_index
    let mask' := combine_masks (pad_mask max_length st.cache_index query_len) attention_mask
    (⟨key', value', st.cache_index + query_len⟩, key', value', mask')

/-! Facts about `dynamic_update_slice`. -/

theorem dynamic_update_slice_length {α : Type} (operand update : List α) (start : ℕ)
    (h : update.length ≤ operand.length) :
    (dynamic_update_slice operand update start).length = operand.length := by
  unfold dynamic_update_slice
  have hs : min start (operand.length - update.length) ≤ operand.length - update.length :=
    min_le_right _ _
  simp only [List.length_append, List.length_take, List.length_drop]
  omega

theorem dynamic_update_slice_getElem_lt {α : Type} (operand update : List α)
    (start i : ℕ) (hfit : start + update.length ≤ operand.length)
    (hi : i < start) (hop : i < operand.length)
    (hres : i < (dynamic_update_slice operand update start).length) :
    (dynamic_update_slice operand update start).get ⟨i, hres⟩
      = operand.get ⟨i, hop⟩ := by
  unfold dynamic_update_slice
  have hs : min start (operand.length - update.length) = start := by omega
  simp only [List.get_eq_getElem]
  have hlt : i < (operand.take (min start (operand.length - update.length))).length := by
    simp only [List.length_take]
    omega
  have h1 : i < ((operand.take (min start (operand.length - update.length))) ++ update).length := by
    simp only [List.length_append, List.length_take]
    omega
  rw [List.getElem_append_left h1]
  rw [List.getElem_append_left hlt]
  simp [List.getElem_take]

theorem dynamic_update_slice_getElem_mid {α : Type} (operand update : List α)
    (start i : ℕ) (hfit : start + update.length ≤ operand.length)
    (hlo : start ≤ i) (hhi : i < start + update.length)
    (hupd : i - start < update.length)
    (hres : i < (dynamic_update_slice operand update start).length) :
    (dynamic_update_slice operand update start).get ⟨i, hres⟩
      = update.get ⟨i - start, hupd⟩ := by
  unfold dynamic_update_slice
  have hs : min start (operand.length - update.length) = start := by omega
  simp only [List.get_eq_getElem]
  have htl : (operand.take (min start (operand.length - update.length))).length = start := by
    simp only [List.length_take]
    omega
  have h1 : i < ((operand.take (min start (operand.length - update.length))) ++ update).length := by
    simp only [List.length_append, htl]
    omega
  rw [List.getElem_append_left h1]
  rw [List.getElem_append_right (by omega : (operand.take (min start (operand.length - update.length))).length ≤ i)]
  congr 1
  omega

theorem pad_mask_getElem (max_length cur_index num_updated j : ℕ)
    (hj : j < (pad_mask max_length cur_index num_updated).length) :
    (pad_mask max_length cur_index num_updated).get ⟨j, hj⟩
      = decide (j < cur_index + num_updated) := by
  unfold pad_mask
  simp [List.getElem_map, List.getElem_range]

/-- C4: on the non-sharded path, an append that fits within remaining capacity
advances the write cursor by exactly `query_len`, leaves every cached position
strictly below the pre-call cursor unchanged (keys and values), and returns a
mask marking exactly the positions below `cursor + query_len` as valid, and-ed
with the incoming mask.  A slot is allocated with cursor `0`, so every append
of a sequence of fitting appends started from an empty slot is of this form. -/
theorem cache_append_monotonic {α : Type} [Inhabited α] (shards : ℕ)
    (st : CacheState α) (key value : List α) (mask : List Bool) (n : ℕ)
    (hkv : st.cached_value.length = st.cached_key.length)
    (hk : key.length = n) (hv : value.length = n)
    (hfit : st.cache_index + n ≤ st.cached_key.length)
    (hmask : mask.length = st.cached_key.length) :
    (concatenate_to_cache false shards st key value n mask).1.cache_index
        = st.cache_index + n
    ∧ (∀ i, i < st.cache_index →
        (concatenate_to_cache false shards st key value n mask).2.1.getD i default
          = st.cached_key.getD i default)
    ∧ (∀ i, i < st.cache_index →
        (concatenate_to_cache false shards st key value n mask).2.2.1.getD i default
          = st.cached_value.getD i default)
    ∧ (∀ j, j < mask.length →
        (concatenate_to_cache false shards st key value n mask).2.2.2.getD j false
          = (decide (j < st.cache_index + n) && mask.getD j false)) := by
  have hbr : concatenate_to_cache false shards st key value n mask
      = (⟨dynamic_update_slice st.cached_key key st.cache_index,
          dynamic_update_slice st.cached_value value st.cache_index,
          st.cache_index + n⟩,
         dynamic_update_slice st.cached_key key st.cache_index,
         dynamic_update_slice st.cached_value value st.cache_index,
         combine_masks (pad_mask st.cached_key.length st.cache_index n) mask) := by
    unfold concatenate_to_cache
    simp
  refine ⟨by rw [hbr], ?_, ?_, ?_⟩
  · intro i hi
    rw [hbr]
    have hres : i < (dynamic_update_slice st.cached_key key st.cache_index).length := by
      rw [dynamic_update_slice_length _ _ _ (by omega)]
      omega
    have h2 : i < st.cached_key.length := by omega
    rw [List.getD_eq_get _ _ hres, List.getD_eq_get _ _ h2]
    exact dynamic_update_slice_getElem_lt _ _ _ _ (by omega) hi h2 hres
  · intro i hi
    rw [hbr]
    have hres : i < (dynamic_update_slice st.cached_value value st.cache_index).length := by
      rw [dynamic_update_slice_length _ _ _ (by omega)]
      omega
    have h2 : i < st.cached_value.length := by omega
    rw [List.getD_eq_get _ _ hres, List.getD_eq_get _ _ h2]
    exact dynamic_update_slice_getElem_lt _ _ _ _ (by omega) hi h2 hres
  · intro j hj
    rw [hbr]
    have hpl : (pad_mask st.cached_key.length st.cache_index n).length
        = st.cached_key.length := by
      simp [pad_mask]
    have hzl : j < (combine_masks (pad_mask st.cached_key.length st.cache_index n) mask).length := by
      simp only [combine_masks, List.length_zipWith, hpl]
      omega
    have hjp : j < (pad_mask st.cached_key.length st.cache_index n).length := by omega
    rw [List.getD_eq_get _ _ hzl, List.getD_eq_get _ _ hj]
    simp only [combine_masks, List.get_eq_getElem, List.getElem_zipWith]
    congr 1
    have := pad_mask_getElem st.cached_key.length st.cache_index n j hjp
    simpa using this

/-- C4 witness: a fitting single-token append on a concrete 4-slot cache at
cursor 2. -/
theorem cache_append_monotonic_witness :
    ((⟨[10, 11, 0, 0], [20, 21, 0, 0], 2⟩ : CacheState ℕ).cached_value.length
        = ([10, 11, 0, 0] : List ℕ).length
      ∧ ([99] : List ℕ).length = 1 ∧ ([88] : List ℕ).length = 1
      ∧ 2 + 1 ≤ ([10, 11, 0, 0] : List ℕ).length
      ∧ ([true, true, true, false] : List Bool).length = ([10, 11, 0, 0] : List ℕ).length)
    ∧ ((concatenate_to_cache false 1 (⟨[10, 11, 0, 0], [20, 21, 0, 0], 2⟩ : CacheState ℕ)
          [99] [88] 1 [true, true, true, false]).1.cache_index = 2 + 1
      ∧ (∀ i, i < 2 →
          (concatenate_to_cache false 1 (⟨[10, 11, 0, 0], [20, 21, 0, 0], 2⟩ : CacheState ℕ)
            [99] [88] 1 [true, true, true, false]).2.1.getD i default
            = ([10, 11, 0, 0] : List ℕ).getD i default)
      ∧ (∀ i, i < 2 →
          (concatenate_to_cache false 1 (⟨[10, 11, 0, 0], [20, 21, 0, 0], 2⟩ : CacheState ℕ)
            [99] [88] 1 [true, true, true, false]).2.2.1.getD i default
            = ([20, 21, 0, 0] : List ℕ).getD i default)
      ∧ (∀ j, j < ([true, true, true, false] : List Bool).length →
          (concatenate_to_cache false 1 (⟨[10, 11, 0, 0], [20, 21, 0, 0], 2⟩ : CacheState ℕ)
            [99] [88] 1 [true, true, true, false]).2.2.2.getD j false
            = (decide (j < 2 + 1) && ([true, true, true, false] : List Bool).getD j false))) :=
  ⟨⟨by decide, by decide, by decide, by decide, by decide⟩,
    cache_append_monotonic 1 ⟨[10, 11, 0, 0], [20, 21, 0, 0], 2⟩ [99] [88]
      [true, true, true, false] 1 (by decide) (by decide) (by decide) (by decide) (by decide)⟩

/-- C1 counterexample: on a full cache (`max_length = 2`, cursor = 2) a further
single-token append does not raise any out-of-capacity error: the write start
is clamped to position 1 (overwriting the previously written entry `11`) and
the cursor advances to `3 > max_length`, violating `write_cursor ≤ max_length`. -/
theorem cache_append_overflow_counterexample :
    (concatenate_to_cache false 1 (⟨[10, 11], [20, 21], 2⟩ : CacheState ℕ)
        [99] [88] 1 [true, true]).1.cache_index = 3
    ∧ ¬ ((concatenate_to_cache false 1 (⟨[10, 11], [20, 21], 2⟩ : CacheState ℕ)
        [99] [88] 1 [true, true]).1.cache_index ≤ ([10, 11] : List ℕ).length)
    ∧ (concatenate_to_cache false 1 (⟨[10, 11], [20, 21], 2⟩ : CacheState ℕ)
        [99] [88] 1 [true, true]).1.cached_key = [10, 99] := by
  refine ⟨?_, ?_, ?_⟩ <;> decide

/-- C1 (amended): `_concatenate_to_cache` performs no capacity check.  An
append always succeeds: the write start is clamped into the buffer (so the
write itself stays within `max_length`, overwriting earlier positions on
overflow), the cursor always advances by `new_query_len`, and the invariant
`write_cursor ≤ max_length` holds after the append exactly when the pre-call
cursor plus `new_query_len` does not exceed `max_length`. -/
theorem cache_append_no_capacity_check {α : Type} [Inhabited α] (shards : ℕ)
    (st : CacheState α) (key value : List α) (mask : List Bool) (n : ℕ)
    (hk : key.length ≤ st.cached_key.length)
    (hv : value.length ≤ st.cached_value.length) :
    (concatenate_to_cache false shards st key value n mask).1.cache_index
        = st.cache_index + n
    ∧ (concatenate_to_cache false shards st key value n mask).1.cached_key.length
        = st.cached_key.length
    ∧ (concatenate_to_cache false shards st key value n mask).1.cached_value.length
        = st.cached_value.length
    ∧ ((concatenate_to_cache false shards st key value n mask).1.cache_index
          ≤ st.cached_key.length
        ↔ st.cache_index + n ≤ st.cached_key.length) := by
  have hbr : concatenate_to_cache false shards st key value n mask
      = (⟨dynamic_update_slice st.cached_key key st.cache_index,
          dynamic_update_slice st.cached_value value st.cache_index,
          st.cache_index + n⟩,
         dynamic_update_slice st.cached_key key st.cache_index,
         dynamic_update_slice st.cached_value value st.cache_index,
         combine_masks (pad_mask st.cached_key.length st.cache_index n) mask) := by
    unfold concatenate_to_cache
    simp
  refine ⟨by rw [hbr], ?_, ?_, by rw [hbr]⟩
  · rw [hbr]
    exact dynamic_update_slice_length _ _ _ hk
  · rw [hbr]
    exact dynamic_update_slice_length _ _ _ hv

/-- C1 amended-claim witness: the overflowing append of the counterexample,
through the general theorem. -/
theorem cache_append_no_capacity_check_witness :
    (([99] : List ℕ).length ≤ ([10, 11] : List ℕ).length
      ∧ ([88] : List ℕ).length ≤ ([20, 21] : List ℕ).length)
    ∧ ((concatenate_to_cache false 1 (⟨[10, 11], [20, 21], 2⟩ : CacheState ℕ)
          [99] [88] 1 [true, true]).1.cache_index = 2 + 1
      ∧ (concatenate_to_cache false 1 (⟨[10, 11], [20, 21], 2⟩ : CacheState ℕ)
          [99] [88] 1 [true, true]).1.cached_key.length = ([10, 11] : List ℕ).length
      ∧ (concatenate_to_cache false 1 (⟨[10, 11], [20, 21], 2⟩ : CacheState ℕ)
          [99] [88] 1 [true, true]).1.cached_value.length = ([20, 21] : List ℕ).length
      ∧ ((concatenate_to_cache false 1 (⟨[10, 11], [20, 21], 2⟩ : CacheState ℕ)
          [99] [88] 1 [true, true]).1.cache_index ≤ ([10, 11] : List ℕ).length
        ↔ 2 + 1 ≤ ([10, 11] : List ℕ).length)) :=
  ⟨⟨by decide, by decide⟩,
    cache_append_no_capacity_check 1 ⟨[10, 11], [20, 21], 2⟩ [99] [88]
      [true, true] 1 (by decide) (by decide)⟩

/-- C3: in the sharded single-token append, shard `p` (owning global range
`[p * sp_size, (p+1) * sp_size)`) leaves its local key/value slices
bit-identical when the global cursor lies outside its range, writes the new
token at local offset `cursor - p * sp_size` when the cursor lies inside, and
at most one shard is in range, so only the owning shard writes. -/
theorem sharded_append_shard_local {α : Type} (sp_size p : ℕ)
    (chunk_key chunk_value : List α) (tok_key tok_value : α) (cur : ℕ)
    (hsp : 0 < sp_size) :
    (¬ (p * sp_size ≤ cur ∧ cur < (p + 1) * sp_size) →
      sharded_cache_update_shard sp_size chunk_key chunk_value tok_key tok_value
          ((cur : ℤ) - (p : ℤ) * (sp_size : ℤ))
        = (chunk_key, chunk_value))
    ∧ ((p * sp_size ≤ cur ∧ cur < (p + 1) * sp_size) →
      sharded_cache_update_shard sp_size chunk_key chunk_value tok_key tok_value
          ((cur : ℤ) - (p : ℤ) * (sp_size : ℤ))
        = (chunk_key.set (cur - p * sp_size) tok_key,
           chunk_value.set (cur - p * sp_size) tok_value))
    ∧ (∀ p₁ p₂ : ℕ, (p₁ * sp_size ≤ cur ∧ cur < (p₁ + 1) * sp_size) →
        (p₂ * sp_size ≤ cur ∧ cur < (p₂ + 1) * sp_size) → p₁ = p₂) := by
  have hcond : (0 ≤ (cur : ℤ) - (p : ℤ) * (sp_size : ℤ)
        ∧ (cur : ℤ) - (p : ℤ) * (sp_size : ℤ) < (sp_size : ℕ))
      ↔ (p * sp_size ≤ cur ∧ cur < (p + 1) * sp_size) := by
    constructor
    · rintro ⟨h1, h2⟩
      constructor
      · have : ((p * sp_size : ℕ) : ℤ) ≤ (cur : ℤ) := by push_cast; linarith
        exact_mod_cast this
      · have : (cur : ℤ) < (((p + 1) * sp_size : ℕ) : ℤ) := by push_cast; linarith
        exact_mod_cast this
    · rintro ⟨h1, h2⟩
      have h1' : ((p * sp_size : ℕ) : ℤ) ≤ (cur : ℤ) := by exact_mod_cast h1
      have h2' : (cur : ℤ) < (((p + 1) * sp_size : ℕ) : ℤ) := by exact_mod_cast h2
      push_cast at h1' h2'
      constructor <;> linarith
  refine ⟨?_, ?_, ?_⟩
  · intro hout
    unfold sharded_cache_update_shard
    rw [if_neg]
    intro hc
    exact hout (hcond.mp hc)
  · intro hin
    unfold sharded_cache_update_shard
    rw [if_pos (hcond.mpr hin)]
    have htn : ((cur : ℤ) - (p : ℤ) * (sp_size : ℤ)).toNat = cur - p * sp_size := by
      have : p * sp_size ≤ cur := hin.1
      have hcast : ((p * sp_size : ℕ) : ℤ) ≤ (cur : ℤ) := by exact_mod_cast this
      push_cast at hcast
      omega
    rw [htn]
  · intro p₁ p₂ h₁ h₂
    rcases Nat.lt_trichotomy p₁ p₂ with hlt | heq | hgt
    · exfalso
      have : (p₁ + 1) * sp_size ≤ p₂ * sp_size :=
        Nat.mul_le_mul_right _ (by omega)
      omega
    · exact heq
    · exfalso
      have : (p₂ + 1) * sp_size ≤ p₁ * sp_size :=
        Nat.mul_le_mul_right _ (by omega)
      omega

/-- C3 witness: 4 shards over a 16-length cache (`sp_size = 4`), cursor at
global position 5: shard 0 (range `[0,4)`) is out of range and unchanged;
shard 1 (range `[4,8)`) writes at local offset 1; the in-range shard is
unique. -/
theorem sharded_append_shard_local_witness :
    (0 < 4
      ∧ ¬ (0 * 4 ≤ 5 ∧ 5 < (0 + 1) * 4)
      ∧ (1 * 4 ≤ 5 ∧ 5 < (1 + 1) * 4))
    ∧ sharded_cache_update_shard 4 ([0, 1, 2, 3] : List ℕ) [10, 11, 12, 13] 99 88
          ((5 : ℤ) - (0 : ℤ) * (4 : ℤ)) = ([0, 1, 2, 3], [10, 11, 12, 13])
    ∧ sharded_cache_update_shard 4 ([4, 5, 6, 7] : List ℕ) [14, 15, 16, 17] 99 88
          ((5 : ℤ) - (1 : ℤ) * (4 : ℤ))
        = (([4, 5, 6, 7] : List ℕ).set (5 - 1 * 4) 99,
           ([14, 15, 16, 17] : List ℕ).set (5 - 1 * 4) 88) :=
  ⟨⟨by decide, by decide, by decide⟩,
    (sharded_append_shard_local 4 0 ([0, 1, 2, 3] : List ℕ) [10, 11, 12, 13] 99 88 5
        (by decide)).1 (by decide),
    (sharded_append_shard_local 4 1 ([4, 5, 6, 7] : List ℕ) [14, 15, 16, 17] 99 88 5
        (by decide)).2.1 (by decide)⟩

/-- C10: on the sharded single-token path (`query_len = 1`,
`use_sharded_kv_caching`), the attention mask is returned exactly as passed in,
while the non-sharded path returns the pad mask
(`arange(max_length) < cursor + query_len`) and-combined with the incoming
mask. -/
theorem sharded_append_mask_passthrough {α : Type} [Inhabited α] :
    (∀ (shards : ℕ) (st : CacheState α) (key value : List α) (mask : List Bool),
      (concatenate_to_cache true shards st key value 1 mask).2.2.2 = mask)
    ∧ (∀ (shards : ℕ) (st : CacheState α) (key value : List α) (mask : List Bool),
      (concatenate_to_cache false shards st key value 1 mask).2.2.2
        = combine_masks (pad_mask st.cached_key.length st.cache_index 1) mask) := by
  constructor
  · intro shards st key value mask
    unfold concatenate_to_cache
    simp
  · intro shards st key value mask
    unfold concatenate_to_cache
    simp

/-! ## Flash-attention dispatcher (`src/easydel/kernels/flash_attention_2.py`)

`FlashAttention.__init__` validates the `(backend, platform)` pair against a
fixed compatibility table and raises `ValueError` otherwise.  `__call__`
first checks `num_q_heads % num_kv_heads == 0` (raising `ValueError` if not),
then dispatches on the platform; the Pallas and JAX compute paths repeat the
key/value heads by `num_q_heads // num_kv_heads` before invoking the kernel,
while the Triton path does so only when `num_q_heads == num_kv_heads` or the
`FORCE_MHA` environment switch is set, and otherwise hands the unrepeated
key/value to the native grouped-query kernel. -/

/-- Supported compute backends. -/
inductive Backend
  | gpu
  | tpu
  | cpu
deriving DecidableEq

/-- Supported flash-attention platforms. -/
inductive Platform
  | triton
  | pallas
  | jax
deriving DecidableEq

/-- Configuration for flash attention (backend and platform already resolved,
as after `AttentionConfig.__post_init__`). -/
structure AttentionConfig where
  blocksize_q : ℕ
  blocksize_k : ℕ
  backend : Backend
  platform : Platform
deriving DecidableEq

/-- The `valid_combinations` set of `FlashAttention._validate_config`. -/
def valid_combinations : List (Backend × Platform) :=
  [(Backend.gpu, Platform.triton), (Backend.gpu, Platform.pallas),
   (Backend.gpu, Platform.jax), (Backend.cpu, Platform.jax),
   (Backend.tpu, Platform.jax), (Backend.tpu, Platform.pallas)]

/-- `FlashAttention.__init__`: store the config after `_validate_config`,
which raises on a pair outside `valid_combinations`. -/
def mk_flash_attention (config : AttentionConfig) : Except String AttentionConfig :=
  if (config.backend, config.platform) ∈ valid_combinations then
    Except.ok config
  else
    Except.error "Invalid backend-platform combination"

/-- The concrete kernels `FlashAttention` can dispatch to. -/
inductive FlashKernel
  | tritonMhaGpu
  | tritonGqaGpu
  | pallasMhaGpu
  | pallasTpu
  | jaxMu
deriving DecidableEq

/-- `FlashAttention.repeat_kv_heads` head count: `b s h d -> b s (h r) d`. -/
def repeat_kv_heads_count (kv_heads num_reps : ℕ) : ℕ := kv_heads * num_reps

/-- `FlashAttention.__call__` restricted to head bookkeeping: returns the
kernel chosen and the number of key/value heads handed to it, or the error
raised before any computation.  `force_mha` models the `FORCE_MHA`
environment switch read in `_compute_triton`. -/
def flash_attention_call (config : AttentionConfig) (force_mha : Bool)
    (num_q_heads num_kv_heads : ℕ) : Except String (FlashKernel × ℕ) :=
  if num_q_heads % num_kv_heads ≠ 0 then
    Except.error "Query heads must be divisible by key/value heads"
  else
    match config.platform with
    | Platform.triton =>
        if num_q_heads = num_kv_heads ∨ force_mha then
          Except.ok (FlashKernel.tritonMhaGpu,
            repeat_kv_heads_count num_kv_heads (num_q_heads / num_kv_heads))
        else
          Except.ok (FlashKernel.tritonGqaGpu, num_kv_heads)
    | Platform.pallas =>
        if config.backend = Backend.gpu then
          Except.ok (FlashKernel.pallasMhaGpu,
            repeat_kv_heads_count num_kv_heads (num_q_heads / num_kv_heads))
        else
          Except.ok (FlashKernel.pallasTpu,
            repeat_kv_heads_count num_kv_heads (num_q_heads / num_kv_heads))
    | Platform.jax =>
        Except.ok (FlashKernel.jaxMu,
          repeat_kv_heads_count num_kv_heads (num_q_heads / num_kv_heads))

/-- C6 counterexample: on the default GPU/Triton configuration with
`q_heads = 32`, `kv_heads = 8` and `FORCE_MHA` unset, the dispatcher hands the
*unrepeated* 8 key/value heads to the native grouped-query Triton kernel — no
repetition by the factor 4 happens before the kernel runs. -/
theorem flash_head_repetition_counterexample :
    flash_attention_call ⟨128, 128, Backend.gpu, Platform.triton⟩ false 32 8
      = Except.ok (FlashKernel.tritonGqaGpu, 8)
    ∧ (8 : ℕ) ≠ 32 := by
  refine ⟨?_, by decide⟩
  rfl

/-- C6 (amended): with `q_heads = 32`, `kv_heads = 8`, the dispatcher computes
the integer factor `4 = 32 / 8` and repeats the key/value heads to 32 before
the kernel on the Pallas and JAX platforms — and on Triton only when
`q_heads = kv_heads` or `FORCE_MHA` is set; on the Triton grouped-query path
the kernel receives the 8 unrepeated heads.  For every head pair with
`q_heads` not divisible by `kv_heads` (such as 30 and 8), the call errors
before any kernel dispatch, on every platform. -/
theorem flash_attention_head_repetition (config : AttentionConfig)
    (force_mha : Bool) :
    ((config.platform = Platform.pallas ∨ config.platform = Platform.jax
        ∨ force_mha = true) →
      ∃ k, flash_attention_call config force_mha 32 8 = Except.ok (k, 32))
    ∧ (config.platform = Platform.triton → force_mha = false →
        flash_attention_call config force_mha 32 8
          = Except.ok (FlashKernel.tritonGqaGpu, 8))
    ∧ (∀ q kv : ℕ, q % kv ≠ 0 →
        flash_attention_call config force_mha q kv
          = Except.error "Query heads must be divisible by key/value heads") := by
  obtain ⟨bq, bk, b, p⟩ := config
  refine ⟨?_, ?_, ?_⟩
  · intro hp
    cases p with
    | triton =>
        simp at hp
        subst hp
        exact ⟨FlashKernel.tritonMhaGpu, by rfl⟩
    | pallas =>
        cases b with
        | gpu => exact ⟨FlashKernel.pallasMhaGpu, by rfl⟩
        | tpu => exact ⟨FlashKernel.pallasTpu, by rfl⟩
        | cpu => exact ⟨FlashKernel.pallasTpu, by rfl⟩
    | jax => exact ⟨FlashKernel.jaxMu, by rfl⟩
  · intro hp hf
    subst hp
    subst hf
    rfl
  · intro q kv hmod
    unfold flash_attention_call
    rw [if_pos hmod]

/-- C6 amended-claim witness: GPU/Pallas repeats to 32 heads; GPU/Triton
without `FORCE_MHA` passes 8 heads; 30 query heads over 8 kv heads error. -/
theorem flash_attention_head_repetition_witness :
    ((Platform.pallas = Platform.pallas ∨ Platform.pallas = Platform.jax
        ∨ false = true)
      ∧ (30 : ℕ) % 8 ≠ 0)
    ∧ (∃ k, flash_attention_call ⟨128, 128, Backend.gpu, Platform.pallas⟩ false 32 8
        = Except.ok (k, 32))
    ∧ flash_attention_call ⟨128, 128, Backend.gpu, Platform.triton⟩ false 32 8
        = Except.ok (FlashKernel.tritonGqaGpu, 8)
    ∧ flash_attention_call ⟨128, 128, Backend.gpu, Platform.pallas⟩ false 30 8
        = Except.error "Query heads must be divisible by key/value heads" :=
  ⟨⟨Or.inl rfl, by decide⟩,
    (flash_attention_head_repetition ⟨128, 128, Backend.gpu, Platform.pallas⟩ false).1
      (Or.inl rfl),
    (flash_attention_head_repetition ⟨128, 128, Backend.gpu, Platform.triton⟩ false).2.1
      rfl rfl,
    (flash_attention_head_repetition ⟨128, 128, Backend.gpu, Platform.pallas⟩ false).2.2
      30 8 (by decide)⟩

/-- The compatibility table exactly as the specification states it. -/
def spec_valid_pairs : List (Backend × Platform) :=
  [(Backend.gpu, Platform.triton), (Backend.gpu, Platform.pallas),
   (Backend.gpu, Platform.jax), (Backend.cpu, Platform.jax),
   (Backend.tpu, Platform.jax), (Backend.tpu, Platform.pallas)]

/-- C9: constructing the dispatcher with a `(backend, platform)` pair inside
the spec's compatibility table succeeds, and with any pair outside it fails
with a configuration error at construction time (before any attention
computation exists to run). -/
theorem flash_attention_valid_pairs (b : Backend) (p : Platform)
    (bq bk : ℕ) :
    ((b, p) ∈ spec_valid_pairs →
      mk_flash_attention ⟨bq, bk, b, p⟩ = Except.ok ⟨bq, bk, b, p⟩)
    ∧ ((b, p) ∉ spec_valid_pairs →
      mk_flash_attention ⟨bq, bk, b, p⟩
        = Except.error "Invalid backend-platform combination") := by
  constructor
  · intro hmem
    unfold mk_flash_attention
    rw [if_pos]
    cases b <;> cases p <;> simp_all [spec_valid_pairs, valid_combinations]
  · intro hmem
    unfold mk_flash_attention
    rw [if_neg]
    intro hc
    apply hmem
    cases b <;> cases p <;> simp_all [spec_valid_pairs, valid_combinations]

/-- C9 witness: `(GPU, Triton)` is in the table and constructs; `(CPU, Triton)`
is outside the table and errors at construction. -/
theorem flash_attention_valid_pairs_witness :
    ((Backend.gpu, Platform.triton) ∈ spec_valid_pairs
      ∧ (Backend.cpu, Platform.triton) ∉ spec_valid_pairs)
    ∧ mk_flash_attention ⟨128, 128, Backend.gpu, Platform.triton⟩
        = Except.ok ⟨128, 128, Backend.gpu, Platform.triton⟩
    ∧ mk_flash_attention ⟨128, 128, Backend.cpu, Platform.triton⟩
        = Except.error "Invalid backend-platform combination" :=
  ⟨⟨by decide, by decide⟩,
    (flash_attention_valid_pairs Backend.gpu Platform.triton 128 128).1 (by decide),
    (flash_attention_valid_pairs Backend.cpu Platform.triton 128 128).2 (by decide)⟩

/-! ## Splash attention block-size clamping
(`src/easydel/layers/attention_operator/splash.py`, `SplashAttn.forward_tpu`)
-/

/-- The `BlockSizes` record handed to `make_splash_mqa_single_device`,
fields in source order. -/
structure BlockSizes where
  block_q : ℕ
  block_kv_compute : ℕ
  block_kv : ℕ
  block_q_dkv : ℕ
  block_kv_dkv : ℕ
  block_kv_dkv_compute : ℕ
  block_q_dq : ℕ
  block_kv_dq : ℕ
deriving DecidableEq

/-- The `BlockSizes` constructed in `SplashAttn.forward_tpu`: every query-side
field is `min(blocksize_q, query_lenght)` and every key/value-side field is
`min(blocksize_k, value_lenght)` (spellings as in the source). -/
def splash_block_sizes (blocksize_q blocksize_k query_lenght value_lenght : ℕ) :
    BlockSizes :=
  ⟨min blocksize_q query_lenght,
   min blocksize_k value_lenght,
   min blocksize_k value_lenght,
   min blocksize_q query_lenght,
   min blocksize_k value_lenght,
   min blocksize_k value_lenght,
   min blocksize_q query_lenght,
   min blocksize_k value_lenght⟩

/-- Modelled from the spec: the splash kernel itself
(`jax.experimental.pallas.ops.tpu.splash_attention`, not part of this
repository) processes the query axis in `⌈q_len / block_q⌉` tiles of
`block_q` positions each. -/
def tile_count (len block : ℕ) : ℕ := (len + block - 1) / block

/-- C8: every block size handed to the splash kernel equals the minimum of the
configured block size and the actual query (resp. key/value) sequence length;
hence block sizes never exceed the sequence lengths, stay positive, and the
tiling covers every query position — in particular `block_q = 128` against
`q_len = 32` clamps to 32 and the whole query is processed. -/
theorem splash_block_size_clamping (bq bk ql vl : ℕ)
    (hbq : 0 < bq) (hbk : 0 < bk) (hql : 0 < ql) (hvl : 0 < vl) :
    ((splash_block_sizes bq bk ql vl).block_q = min bq ql
      ∧ (splash_block_sizes bq bk ql vl).block_q_dkv = min bq ql
      ∧ (splash_block_sizes bq bk ql vl).block_q_dq = min bq ql
      ∧ (splash_block_sizes bq bk ql vl).block_kv = min bk vl
      ∧ (splash_block_sizes bq bk ql vl).block_kv_compute = min bk vl
      ∧ (splash_block_sizes bq bk ql vl).block_kv_dkv = min bk vl
      ∧ (splash_block_sizes bq bk ql vl).block_kv_dkv_compute = min bk vl
      ∧ (splash_block_sizes bq bk ql vl).block_kv_dq = min bk vl)
    ∧ (splash_block_sizes bq bk ql vl).block_q ≤ ql
    ∧ (splash_block_sizes bq bk ql vl).block_kv ≤ vl
    ∧ 0 < (splash_block_sizes bq bk ql vl).block_q
    ∧ (∀ i, i < ql →
        i / (splash_block_sizes bq bk ql vl).block_q
            < tile_count ql (splash_block_sizes bq bk ql vl).block_q
          ∧ (i / (splash_block_sizes bq bk ql vl).block_q)
              * (splash_block_sizes bq bk ql vl).block_q ≤ i
          ∧ i < (i / (splash_block_sizes bq bk ql vl).block_q)
              * (splash_block_sizes bq bk ql vl).block_q
              + (splash_block_sizes bq bk ql vl).block_q) := by
  have hBq : (splash_block_sizes bq bk ql vl).block_q = min bq ql := rfl
  have hB : 0 < min bq ql := lt_min hbq hql
  refine ⟨⟨rfl, rfl, rfl, rfl, rfl, rfl, rfl, rfl⟩,
    min_le_right _ _, min_le_right _ _, hB, ?_⟩
  intro i hi
  rw [hBq]
  set B := min bq ql with hBdef
  have hdm := Nat.div_add_mod i B
  have hml := Nat.mod_lt i hB
  have hcm : (i / B) * B = B * (i / B) := Nat.mul_comm _ _
  refine ⟨?_, by omega, by omega⟩
  unfold tile_count
  have h1 : i / B ≤ (ql - 1) / B := Nat.div_le_div_right (by omega)
  have h2 : (ql - 1 + B) / B = (ql - 1) / B + 1 := Nat.add_div_right _ hB
  have h3 : ql + B - 1 = ql - 1 + B := by omega
  rw [h3, h2]
  omega

/-- C8 witness: requesting `block_q = 128` against `q_len = 32` (with
`block_k = 128`, `kv_len = 32`) clamps `block_q` to 32 and the single tile
covers the full query. -/
theorem splash_block_size_clamping_witness :
    (0 < 128 ∧ 0 < 32)
    ∧ (splash_block_sizes 128 128 32 32).block_q = min 128 32
    ∧ (splash_block_sizes 128 128 32 32).block_q ≤ 32
    ∧ (∀ i, i < 32 →
        i / (splash_block_sizes 128 128 32 32).block_q
            < tile_count 32 (splash_block_sizes 128 128 32 32).block_q
          ∧ (i / (splash_block_sizes 128 128 32 32).block_q)
              * (splash_block_sizes 128 128 32 32).block_q ≤ i
          ∧ i < (i / (splash_block_sizes 128 128 32 32).block_q)
              * (splash_block_sizes 128 128 32 32).block_q
              + (splash_block_sizes 128 128 32 32).block_q) :=
  ⟨⟨by decide, by decide⟩,
    (splash_block_size_clamping 128 128 32 32 (by decide) (by decide) (by decide)
        (by decide)).1.1,
    (splash_block_size_clamping 128 128 32 32 (by decide) (by decide) (by decide)
        (by decide)).2.1,
    (splash_block_size_clamping 128 128 32 32 (by decide) (by decide) (by decide)
        (by decide)).2.2.2.2⟩

/-! ## Dense attention bias and softmax on fully-masked rows
(`src/lib/python/EasyDel/modules/phi/modelling_phi_flax.py`,
`FlaxPhiAttention.__call__`)

`attention_bias = lax.select(attention_mask > 0, full(0.0), full(finfo(dtype).min))`
assigns valid positions bias `0` and masked positions the largest
representable negative *finite* value of the working dtype — for the default
`float32`, `finfo.min = -(2 - 2^-23)·2^127 = -(2^128 - 2^104)` exactly — and
never `-inf`.  The bias is added to the scores and `jax.nn.softmax`
(numerically stable: it subtracts the row maximum before exponentiating) is
applied.  On a fully-masked row every float32 score `s` with `|s| < 2^103` is
absorbed: `s + finfo.min` rounds back to `finfo.min` (the binade's spacing is
`2^104`), so the softmax input is the constant `finfo.min` row; the softmax is
modelled over exact rationals with an abstract exponential `e`, assumed only
strictly positive with `e 0 = 1` — the properties of `exp` the computation
relies on. -/

/-- `jnp.finfo(jnp.float32).min` as an exact rational: `-(2 - 2^-23)·2^127`. -/
def float32_min : ℚ := -(2^128 - 2^104)

/-- The dense attention-bias row built by `lax.select` from one mask row. -/
def attention_bias_row (mask : List Bool) : List ℚ :=
  mask.map (fun m => if m then (0 : ℚ) else float32_min)

/-- Row maximum, as subtracted by the numerically stable `jax.nn.softmax`. -/
def row_max : List ℚ → ℚ
  | [] => 0
  | x :: xs => xs.foldl max x

/-- Numerically stable softmax over one row, with the exponential abstracted:
`softmax(x)_i = e(x_i - max x) / Σ_j e(x_j - max x)`. -/
def softmax_with (e : ℚ → ℚ) (xs : List ℚ) : List ℚ :=
  (xs.map (fun x => e (x - row_max xs))).map
    (fun w => w / (xs.map (fun x => e (x - row_max xs))).sum)

theorem row_max_replicate (n : ℕ) (hn : 0 < n) (c : ℚ) :
    row_max (List.replicate n c) = c := by
  have hfold : ∀ k : ℕ, (List.replicate k c).foldl max c = c := by
    intro k
    induction k with
    | zero => rfl
    | succ m ih => simp only [List.replicate_succ, List.foldl_cons, max_self, ih]
  cases n with
  | zero => omega
  | succ m =>
      simp only [List.replicate_succ, row_max]
      exact hfold m

theorem softmax_with_replicate (n : ℕ) (hn : 0 < n) (c : ℚ) (e : ℚ → ℚ)
    (he0 : e 0 = 1) :
    softmax_with e (List.replicate n c) = List.replicate n (1 / (n : ℚ)) := by
  unfold softmax_with
  rw [row_max_replicate n hn c]
  have hmap : (List.replicate n c).map (fun x => e (x - c)) = List.replicate n 1 := by
    rw [List.map_replicate, sub_self, he0]
  rw [hmap]
  have hsum : (List.replicate n (1 : ℚ)).sum = (n : ℚ) := by
    rw [List.sum_replicate, nsmul_eq_mul, mul_one]
  rw [hsum, List.map_replicate]

/-- C7: on a fully-masked query row of positive length `n`, the dense bias row
is the constant row of the finite value `finfo(float32).min` (a rational, in
particular finite and strictly above any `-inf`), and the stable softmax of
that row is exactly the uniform distribution: every weight is the well-defined
positive value `1/n` and the weights sum to 1 — no NaN can arise. -/
theorem dense_masked_row_softmax (n : ℕ) (mask : List Bool) (e : ℚ → ℚ)
    (hn : 0 < n) (hmask : mask.length = n) (hall : ∀ b ∈ mask, b = false)
    (he0 : e 0 = 1) (hpos : ∀ x, 0 < e x) :
    attention_bias_row mask = List.replicate n float32_min
    ∧ float32_min < 0
    ∧ softmax_with e (attention_bias_row mask) = List.replicate n (1 / (n : ℚ))
    ∧ (softmax_with e (attention_bias_row mask)).sum = 1
    ∧ ∀ w ∈ softmax_with e (attention_bias_row mask), 0 < w := by
  have hbias : attention_bias_row mask = List.replicate n float32_min := by
    unfold attention_bias_row
    rw [List.eq_replicate_iff]
    refine ⟨by simp [hmask], ?_⟩
    intro b hb
    rw [List.mem_map] at hb
    obtain ⟨m, hm, hmb⟩ := hb
    rw [hall m hm] at hmb
    simpa using hmb.symm
  have hsm : softmax_with e (attention_bias_row mask)
      = List.replicate n (1 / (n : ℚ)) := by
    rw [hbias]
    exact softmax_with_replicate n hn float32_min e he0
  have hnq : (0 : ℚ) < (n : ℚ) := by exact_mod_cast hn
  refine ⟨hbias, by norm_num [float32_min], hsm, ?_, ?_⟩
  · rw [hsm, List.sum_replicate, nsmul_eq_mul]
    field_simp
  · intro w hw
    rw [hsm] at hw
    rw [List.eq_of_mem_replicate hw]
    positivity

/-- C7 witness: a fully-masked row of length 2, with the exponential
instantiated by the constant function 1 (strictly positive, value 1 at 0). -/
theorem dense_masked_row_softmax_witness :
    (0 < 2 ∧ ([false, false] : List Bool).length = 2
      ∧ (∀ b ∈ ([false, false] : List Bool), b = false)
      ∧ (fun (_ : ℚ) => (1 : ℚ)) 0 = 1 ∧ (∀ x : ℚ, 0 < (fun (_ : ℚ) => (1 : ℚ)) x))
    ∧ (attention_bias_row [false, false] = List.replicate 2 float32_min
      ∧ float32_min < 0
      ∧ softmax_with (fun (_ : ℚ) => (1 : ℚ)) (attention_bias_row [false, false])
          = List.replicate 2 (1 / (2 : ℚ))
      ∧ (softmax_with (fun (_ : ℚ) => (1 : ℚ)) (attention_bias_row [false, false])).sum = 1
      ∧ ∀ w ∈ softmax_with (fun (_ : ℚ) => (1 : ℚ)) (attention_bias_row [false, false]),
          0 < w) :=
  ⟨⟨by decide, by decide, by decide, rfl, fun x => by norm_num⟩,
    dense_masked_row_softmax 2 [false, false] (fun _ => 1) (by decide) (by decide)
      (by decide) rfl (fun x => by norm_num)⟩

end EasyDeL
